import Mathlib

/-!
Verification of the `ue-clangd-helper` VS Code extension (`src/extension.ts`)
against its natural-language specification.

The embedding is shallow: JSON values are an inductive type (`Json`),
the filesystem is an association list from path strings to contents,
and host state (workspace folders, diagnostics, configuration flags) is
passed explicitly.  Exceptions thrown by the TypeScript code are modeled
with `Except Unit`.  `JSON.parse` / `JSON.stringify` round-tripping is
modeled by keeping file contents at the JSON-value level: a written file
holds exactly the value that was serialized, and serialization is the
deterministic function `Json.serialize`, so equal values give
byte-identical files.  Path separators are modeled as `/`
(`path.join a b = a ++ "/" ++ b`); nothing in the claims depends on the
platform separator.
-/

/-- JSON value, as produced by `JSON.parse`.  All numbers appearing in the
task manifest are integers, so numbers are modeled by `Int`. -/
inductive Json where
  | null
  | bool (b : Bool)
  | num (n : Int)
  | str (s : String)
  | arr (xs : List Json)
  | obj (fields : List (String × Json))

/-- JavaScript truthiness of a JSON value (`null`, `false`, `0` and `""` are
falsy; arrays and objects are always truthy). -/
def jsTruthy : Json → Bool
  | .null => false
  | .bool b => b
  | .num n => n != 0
  | .str s => s != ""
  | .arr _ => true
  | .obj _ => true

/-- Property read `o[k]` on a JSON object: the first field with the given key
(`JSON.parse` output never has duplicate keys, so first = only). -/
def lookupField (fields : List (String × Json)) (k : String) : Option Json :=
  (fields.find? (fun kv => kv.1 == k)).map (fun kv => kv.2)

/-- Property write `o[k] = v` on a JSON object: replace the first field with
the given key in place (JS keeps the key's insertion position), or append the
key at the end when it is new. -/
def setField : List (String × Json) → String → Json → List (String × Json)
  | [], k, v => [(k, v)]
  | kv :: fields, k, v =>
    if kv.1 == k then (k, v) :: fields else kv :: setField fields k v

/-- Escape of one character inside a JSON string literal. -/
def jsonEscapeChar (c : Char) : String :=
  if c = '"' then "\\\"" else if c = '\\' then "\\\\" else String.singleton c

/-- JSON string literal. -/
def jsonQuote (s : String) : String :=
  "\"" ++ (s.toList.foldr (fun c acc => jsonEscapeChar c ++ acc) "") ++ "\""

mutual

/-- Deterministic serialization of a JSON value, modeling `JSON.stringify`
(compactly; `JSON.stringify(v, null, 4)` additionally inserts fixed
whitespace, which does not affect any equality of serialized outputs, the
only way serialization is used below: equal values serialize to equal
bytes). -/
def Json.serialize : Json → String
  | .null => "null"
  | .bool true => "true"
  | .bool false => "false"
  | .num n => toString n
  | .str s => jsonQuote s
  | .arr xs => "[" ++ serializeItems xs ++ "]"
  | .obj fields => "\x7b" ++ serializeFields fields ++ "\x7d"

/-- Comma-separated serialization of array items. -/
def serializeItems : List Json → String
  | [] => ""
  | [x] => Json.serialize x
  | x :: y :: xs => Json.serialize x ++ "," ++ serializeItems (y :: xs)

/-- Comma-separated serialization of object fields. -/
def serializeFields : List (String × Json) → String
  | [] => ""
  | [kv] => jsonQuote kv.1 ++ ":" ++ Json.serialize kv.2
  | kv :: kw :: fields =>
    jsonQuote kv.1 ++ ":" ++ Json.serialize kv.2 ++ "," ++ serializeFields (kw :: fields)

end

/-- Result of `getWorkspacePaths` when all three pieces were found
(`projectRoot`, `engineRoot`, `projectName`); also reused as the running
accumulator of the scan loop, whose locals are exactly these three strings. -/
structure WorkspacePaths where
  projectRoot : String
  engineRoot : String
  projectName : String

/-- `path.join` with two components, with the separator fixed to `/`. -/
def pathJoin (a b : String) : String := a ++ "/" ++ b

def TASK_GENERATE : String := "Generate Clang CompileCommands"

def TASK_UHT : String := "Refresh UHT Generated Headers"

def TASK_COMPOUND : String := "Fix Header False Errors"

/-- `path.join(paths.engineRoot, 'Engine', 'Build', 'BatchFiles', 'Build.bat')`. -/
def buildBatPath (p : WorkspacePaths) : String :=
  pathJoin (pathJoin (pathJoin (pathJoin p.engineRoot "Engine") "Build") "BatchFiles") "Build.bat"

/-- `path.join(paths.projectRoot, projectName + '.uproject')`. -/
def uprojectPath (p : WorkspacePaths) : String :=
  pathJoin p.projectRoot (p.projectName ++ ".uproject")

/-- The derived `.uhtmanifest` path used by the UHT task. -/
def uhtManifestPath (p : WorkspacePaths) : String :=
  pathJoin (pathJoin (pathJoin (pathJoin (pathJoin p.projectRoot "Intermediate") "Build") "Win64")
    (p.projectName ++ "Editor")) (pathJoin "Development" (p.projectName ++ "Editor.uhtmanifest"))

/-- First of the four injected task definitions: the build-database
generation task. -/
def generateTask (p : WorkspacePaths) : Json :=
  .obj [
    ("label", .str TASK_GENERATE),
    ("type", .str "shell"),
    ("command", .str (buildBatPath p)),
    ("args", .arr [
      .str (p.projectName ++ "Editor"), .str "Win64", .str "Development",
      .str ("-project=" ++ uprojectPath p), .str "-mode=GenerateClangDatabase",
      .str "-game", .str "-rocket", .str "-progress", .str "-UsePrecompiled"]),
    ("group", .str "build"),
    ("problemMatcher", .arr [])]

/-- Second injected task: the UnrealHeaderTool refresh task. -/
def uhtTask (p : WorkspacePaths) : Json :=
  .obj [
    ("label", .str TASK_UHT),
    ("type", .str "shell"),
    ("command", .str (buildBatPath p)),
    ("args", .arr [
      .str "-Mode=UnrealHeaderTool", .str (uprojectPath p),
      .str (uhtManifestPath p), .str "-WarningsAsErrors"]),
    ("problemMatcher", .str "$msCompile"),
    ("presentation", .obj [("reveal", .str "silent"), ("panel", .str "shared")])]

/-- Third injected task: restart clangd by delegating to a host command. -/
def restartClangdTask : Json :=
  .obj [
    ("label", .str "Restart Clangd"),
    ("command", .str "$\x7bcommand:clangd.restart\x7d"),
    ("problemMatcher", .arr [])]

/-- Fourth injected task: the compound fix task running UHT then restart in
sequence. -/
def fixHeadersTask : Json :=
  .obj [
    ("label", .str TASK_COMPOUND),
    ("dependsOn", .arr [.str TASK_UHT, .str "Restart Clangd"]),
    ("dependsOrder", .str "sequence"),
    ("group", .obj [("kind", .str "build"), ("isDefault", .bool false)]),
    ("problemMatcher", .arr [])]

/-- The `newTasks` array of `injectTasks`, in source order. -/
def newTasks (p : WorkspacePaths) : List Json :=
  [generateTask p, uhtTask p, restartClangdTask, fixHeadersTask]

/-- The labels of the four injected tasks. -/
def requiredLabels : List String :=
  [TASK_GENERATE, TASK_UHT, "Restart Clangd", TASK_COMPOUND]

/-- JavaScript property read `et.label` on an arbitrary JSON value:
reading a property of `null` throws a `TypeError` (modeled as `.error ()`);
on any non-object the property is `undefined`; on an object it is the value
of the `label` field, kept only when it is a string, since the label is
always compared with `===` against a string and a non-string value can never
be strictly equal to one. -/
def labelOf : Json → Except Unit (Option String)
  | .null => .error ()
  | .obj fields =>
    .ok (match lookupField fields "label" with
      | some (.str s) => some s
      | _ => none)
  | _ => .ok none

/-- Whether an entry of the task array carries the given label (a `null`
entry, whose property read would throw, carries none). -/
def hasLabel (e : Json) (L : String) : Bool :=
  match labelOf e with
  | .ok (some s) => s == L
  | _ => false

/-- Number of entries of a task array carrying a given label. -/
def countLabel (L : String) (ts : List Json) : Nat :=
  ts.countP (fun et => hasLabel et L)

/-- One `newTasks.forEach` iteration of `injectTasks`:
`tasksJson.tasks.findIndex(et => et.label === nt.label)`, then in-place
replacement at the found index, otherwise `push`.  Written as the equivalent
single traversal: scan for the first entry whose label strictly equals
`ntLabel`, replace it, and append at the end when no entry matches; the scan
stops at the first match, exactly like `findIndex`, and property access on a
`null` entry throws. -/
def mergeTaskRec (ntLabel : Option String) (nt : Json) : List Json → Except Unit (List Json)
  | [] => .ok [nt]
  | et :: ts =>
    match labelOf et with
    | .error e => .error e
    | .ok l =>
      if l == ntLabel then .ok (nt :: ts)
      else
        match mergeTaskRec ntLabel nt ts with
        | .error e => .error e
        | .ok r => .ok (et :: r)

/-- One merge step for a new task `nt`: evaluate `nt.label` and run the
replace-or-append scan. -/
def mergeStep (ts : List Json) (nt : Json) : Except Unit (List Json) :=
  match labelOf nt with
  | .error e => .error e
  | .ok l => mergeTaskRec l nt ts

/-- `newTasks.forEach(...)` of `injectTasks`: merge the four new task
definitions into the existing task array, in source order. -/
def mergeNewTasks (p : WorkspacePaths) (ts : List Json) : Except Unit (List Json) :=
  match mergeStep ts (generateTask p) with
  | .error e => .error e
  | .ok ts1 =>
    match mergeStep ts1 (uhtTask p) with
    | .error e => .error e
    | .ok ts2 =>
      match mergeStep ts2 restartClangdTask with
      | .error e => .error e
      | .ok ts3 => mergeStep ts3 fixHeadersTask

/-- State of the `tasks.json` manifest file. -/
inductive FileContent where
  | absent
  | malformed
  | parsed (j : Json)

/-- The default manifest structure `{"version": "2.0.0", "tasks": []}`. -/
def defaultManifest : Json :=
  .obj [("version", .str "2.0.0"), ("tasks", .arr [])]

/-- The manifest-reading phase of `injectTasks` (the `try`/`catch` around
`readFileSync` + `JSON.parse` + the `tasks` fix-up), returning the in-memory
`tasksJson` and whether the `catch` ran (`console.warn`).  A parse failure
falls back to the default manifest.  A parsed top-level value that is not an
object makes `tasksJson.tasks` access/assignment throw a `TypeError` inside
the same `try` (`null.tasks` throws; property assignment on a primitive
throws under the strict mode emitted by the TypeScript compiler), which the
`catch` also turns into the default manifest.  A parsed top-level array is
an object in JS, so the phantom `tasks` property is silently added to it;
`JSON.stringify` later drops non-index properties of an array, which the
value-level model reflects by leaving the array unchanged. -/
def manifestAfterRead : FileContent → Json × Bool
  | .absent => (defaultManifest, false)
  | .malformed => (defaultManifest, true)
  | .parsed j =>
    match j with
    | .obj fields =>
      (match lookupField fields "tasks" with
        | some v => if jsTruthy v then .obj fields else .obj (setField fields "tasks" (.arr []))
        | none => .obj (setField fields "tasks" (.arr [])), false)
    | .arr xs => (.arr xs, false)
    | _ => (defaultManifest, true)

/-- Observable outcome of one `injectTasks` run.  `written = some j` means
the manifest file was rewritten with `Json.serialize j`; `written = none`
means an exception escaped before `writeFileSync` and the file is untouched.
`parseWarned` records the `console.warn` of the parse `catch`;
`userMessageShown` records calls to `vscode.window.show*Message`, of which
`injectTasks` makes none. -/
structure InjectOutcome where
  written : Option Json
  parseWarned : Bool
  userMessageShown : Bool

/-- `injectTasks(paths)` as a function of the current manifest file state:
read (with fallback), merge the four new tasks into `tasksJson.tasks`, and
write the merged manifest back.  When `tasksJson.tasks` is a truthy
non-array, `findIndex` does not exist on it and the `forEach` throws outside
any `try`, so nothing is written; likewise when the merge itself throws on a
`null` entry.  (Creation of the `.vscode` directory has no observable effect
on the manifest value and is not modeled.) -/
def injectTasks (p : WorkspacePaths) (f : FileContent) : InjectOutcome :=
  match manifestAfterRead f with
  | (.obj fields, warned) =>
    (match lookupField fields "tasks" with
      | some (.arr ts) =>
        match mergeNewTasks p ts with
        | .ok ts2 => ⟨some (.obj (setField fields "tasks" (.arr ts2))), warned, false⟩
        | .error _ => ⟨none, warned, false⟩
      | _ => ⟨none, warned, false⟩)
  | (.arr xs, warned) => ⟨some (.arr xs), warned, false⟩
  | (_, warned) => ⟨none, warned, false⟩

example : (injectTasks ⟨"/p", "/e", "G"⟩ .malformed).written =
    some (.obj [("version", .str "2.0.0"), ("tasks", .arr (newTasks ⟨"/p", "/e", "G"⟩))]) := rfl

example : (injectTasks ⟨"/p", "/e", "G"⟩ .absent).parseWarned = false := rfl

/-- `String.prototype.endsWith`, modeled on the character list. -/
def strEndsWith (s suffix : String) : Bool :=
  suffix.toList.isSuffixOf s.toList

/-- `String.prototype.includes` (substring containment), modeled on the
character list. -/
def strIncludes (hay needle : String) : Bool :=
  (List.range (hay.toList.length + 1)).any
    (fun i => (hay.toList.drop i).take needle.toList.length == needle.toList)

/-- `path.parse(f).name` for a file name `f` (no separators, coming from
`readdirSync`): the base name with its last extension stripped, except that
a leading-dot file whose only dot is the leading one (such as `.uproject`
itself) has no extension and keeps its full name. -/
def uprojectStem (u : String) : String :=
  if u = ".uproject" then u
  else String.mk (u.toList.take (u.toList.length - 9))

/-- One open workspace folder together with the filesystem answers the scan
gets for it: whether `statSync` succeeds, whether it is a directory, whether
`readdirSync` succeeds and what it lists, and whether `existsSync` finds the
engine marker `Engine/Build/BatchFiles/Build.bat` under it. -/
structure Folder where
  fsPath : String
  statOk : Bool
  isDir : Bool
  readOk : Bool
  files : List String
  hasBuildBat : Bool

/-- Whether the scan loop gets past its guards for a folder: `statSync`
succeeded, the path is a directory, and `readdirSync` succeeded (a thrown
`statSync`/`readdirSync` is caught, logged and skips the folder). -/
def scannable (f : Folder) : Bool :=
  f.statOk && f.isDir && f.readOk

/-- `files.find(f => f.endsWith('.uproject'))`: the first project-descriptor
file in directory-listing order. -/
def findUproject (f : Folder) : Option String :=
  f.files.find? (fun n => strEndsWith n ".uproject")

/-- One iteration of the `getWorkspacePaths` folder loop, updating the three
accumulator strings. -/
def scanFolder (st : WorkspacePaths) (f : Folder) : WorkspacePaths :=
  if !f.statOk then st
  else if !f.isDir then st
  else if !f.readOk then st
  else
    let st1 :=
      match findUproject f with
      | some u => { st with projectRoot := f.fsPath, projectName := uprojectStem u }
      | none => st
    if f.hasBuildBat then { st1 with engineRoot := f.fsPath } else st1

/-- `getWorkspacePaths()`: scan the open workspace folders (`none` models
`vscode.workspace.workspaceFolders` being `undefined`), then return the
combined result only when all three accumulated strings are truthy
(non-empty), else `null`. -/
def getWorkspacePaths (ws : Option (List Folder)) : Option WorkspacePaths :=
  match ws with
  | none => none
  | some folders =>
    let st := folders.foldl scanFolder ⟨"", "", ""⟩
    if st.projectRoot ≠ "" ∧ st.engineRoot ≠ "" ∧ st.projectName ≠ "" then
      some ⟨st.projectRoot, st.engineRoot, st.projectName⟩
    else none

/-- `vscode.DiagnosticSeverity`. -/
inductive DiagnosticSeverity where
  | Error
  | Warning
  | Information
  | Hint
deriving DecidableEq

/-- `diagnostic.code` of the VS Code API: a plain string, a number, a
structured `(value, target)` object whose `value` is a string or a number,
or absent (`undefined`). -/
inductive DiagnosticCode where
  | codeString (s : String)
  | codeNumber (n : Int)
  | codeObjectString (s : String)
  | codeObjectNumber (n : Int)
  | codeUndefined

/-- The diagnostic fields `hasPhantomErrors` reads. -/
structure Diagnostic where
  severity : DiagnosticSeverity
  code : DiagnosticCode

/-- The `errorCode` normalization of `hasPhantomErrors`:
`typeof code === 'string' ? code : (typeof code === 'object' && code !== null
? String(code.value) : '')`.  A number code is neither a string nor an
object, hence `''`; `String` of a string is itself and of an integer is its
decimal representation. -/
def normalizeCode : DiagnosticCode → String
  | .codeString s => s
  | .codeNumber _ => ""
  | .codeObjectString s => s
  | .codeObjectNumber n => toString n
  | .codeUndefined => ""

/-- `hasPhantomErrors(fileUri)` as a pure predicate on the host's current
diagnostics for the file. -/
def hasPhantomErrors (diagnostics : List Diagnostic) : Bool :=
  diagnostics.any fun diagnostic =>
    (diagnostic.severity == DiagnosticSeverity.Error) &&
      (normalizeCode diagnostic.code == "ovl_deleted_init" ||
        normalizeCode diagnostic.code == "missing_type_specifier")

/-- The `onDidSaveTextDocument` watcher body, as a function of the
`autoFixOnSave` configuration flag, the open workspace folders, the saved
document's file name, and the host's current diagnostics for it.  The result
is whether the handler reaches `triggerTask(TASK_COMPOUND)` (the handler
shows no messages of its own and returns silently in every other case). -/
def onDidSaveTextDocument (autoFixOnSave : Bool) (ws : Option (List Folder))
    (fileName : String) (diagnostics : List Diagnostic) : Bool :=
  if !autoFixOnSave then false
  else
    match getWorkspacePaths ws with
    | none => false
    | some projectPaths =>
      let isHeader := strEndsWith fileName ".h"
      let isInSource := strIncludes fileName (pathJoin projectPaths.projectRoot "Source")
      if isHeader && isInSource then hasPhantomErrors diagnostics else false

/-- A filesystem fragment: association of path strings to file contents. -/
structure FileSys where
  entries : List (String × String)

/-- Read a file, `none` when absent. -/
def FileSys.read (fs : FileSys) (p : String) : Option String :=
  (fs.entries.find? (fun kv => kv.1 == p)).map (fun kv => kv.2)

/-- Association-list update backing `FileSys.write`. -/
def setEntry : List (String × String) → String → String → List (String × String)
  | [], k, v => [(k, v)]
  | kv :: entries, k, v =>
    if kv.1 == k then (k, v) :: entries else kv :: setEntry entries k v

/-- Write (create or overwrite) a file. -/
def FileSys.write (fs : FileSys) (p c : String) : FileSys :=
  ⟨setEntry fs.entries p c⟩

/-- Observable outcome of one `syncCompileCommands` run. -/
structure SyncOutcome where
  fs : FileSys
  infoShown : Bool
  warnShown : Bool
  errorShown : Bool
  restartRequested : Bool

/-- `syncCompileCommands()`: silently skip when paths are unresolved; when
the source database exists under the engine root, copy it to the project
root, report success and request the clangd restart; when the copy throws
(`copyFails` models a permissions/disk failure, leaving the destination
unchanged), report an error and request no restart; when the source is
absent, only warn. -/
def syncCompileCommands (ws : Option (List Folder)) (fs : FileSys) (copyFails : Bool) :
    SyncOutcome :=
  match getWorkspacePaths ws with
  | none => ⟨fs, false, false, false, false⟩
  | some paths =>
    let source := pathJoin paths.engineRoot "compile_commands.json"
    let dest := pathJoin paths.projectRoot "compile_commands.json"
    match fs.read source with
    | some content =>
      if copyFails then ⟨fs, false, false, true, false⟩
      else ⟨fs.write dest content, true, false, false, true⟩
    | none => ⟨fs, false, true, false, false⟩

/-- Observable outcome of the config-install step of `runSetup`. -/
structure ConfigInstallOutcome where
  fs : FileSys
  warnShown : Bool
  errorShown : Bool

/-- The `generateConfigs` block of `runSetup`: read the two bundled
templates (`none` models a `readFileSync` throw, which the outer `catch`
turns into an error message with no writes); on success write `.clangd` and
`.clang-format` into the project root unconditionally, then try to write
`.clangd` (only) into the engine root, downgrading a throw there
(`engineWriteFails`) to a warning.  In every case `runSetup` then continues
to `injectTasks`; the project-root writes are modeled as succeeding, which
is the situation all claims about this step address. -/
def runSetupConfigInstall (paths : WorkspacePaths)
    (clangdContent formatContent : Option String) (engineWriteFails : Bool)
    (fs : FileSys) : ConfigInstallOutcome :=
  match clangdContent, formatContent with
  | some cc, some fc =>
    let fs1 := fs.write (pathJoin paths.projectRoot ".clangd") cc
    let fs2 := fs1.write (pathJoin paths.projectRoot ".clang-format") fc
    if engineWriteFails then ⟨fs2, true, false⟩
    else ⟨fs2.write (pathJoin paths.engineRoot ".clangd") cc, false, false⟩
  | _, _ => ⟨fs, false, true⟩

example : getWorkspacePaths (some [⟨"/ws", true, true, true, ["Game.uproject"], true⟩]) =
    some ⟨"/ws", "/ws", "Game"⟩ := rfl

example : getWorkspacePaths (some [⟨"/ws", true, true, true, ["Game.uproject"], false⟩]) =
    none := rfl

example :
    getWorkspacePaths (some [⟨"/p", true, true, true, ["A.uproject", "B.uproject"], true⟩]) =
    some ⟨"/p", "/p", "A"⟩ := rfl

example : hasPhantomErrors [⟨.Error, .codeString "ovl_deleted_init"⟩] = true := rfl

example : hasPhantomErrors [⟨.Warning, .codeString "ovl_deleted_init"⟩] = false := rfl

example : hasPhantomErrors [⟨.Error, .codeObjectString "missing_type_specifier"⟩] = true := rfl

example : hasPhantomErrors [⟨.Error, .codeNumber 3⟩] = false := rfl

/-! ### Lemmas about the merge of the four task definitions -/

theorem labelOf_generateTask (p : WorkspacePaths) :
    labelOf (generateTask p) = .ok (some TASK_GENERATE) := rfl

theorem labelOf_uhtTask (p : WorkspacePaths) :
    labelOf (uhtTask p) = .ok (some TASK_UHT) := rfl

theorem labelOf_restartClangdTask :
    labelOf restartClangdTask = .ok (some "Restart Clangd") := rfl

theorem labelOf_fixHeadersTask :
    labelOf fixHeadersTask = .ok (some TASK_COMPOUND) := rfl

/-- `t` occurs in `ts` and every entry before it has a (successfully read)
label different from `some L`; that is, a `findIndex` scan for label `L`
stops exactly at `t`. -/
def FirstLabeled (L : String) (t : Json) (ts : List Json) : Prop :=
  ∃ pre post, ts = pre ++ t :: post ∧ ∀ e ∈ pre, ∃ l, labelOf e = .ok l ∧ l ≠ some L

/-- Merging a task into a list in which it is already the first match of its
own label leaves the list unchanged. -/
theorem mergeTaskRec_of_firstLabeled (L : String) (t : Json)
    (hl : labelOf t = .ok (some L)) (ts : List Json) (h : FirstLabeled L t ts) :
    mergeTaskRec (some L) t ts = .ok ts := by
  obtain ⟨pre, post, rfl, hpre⟩ := h
  induction pre with
  | nil => simp [mergeTaskRec, hl]
  | cons e pre ih =>
    obtain ⟨l, hle, hlne⟩ := hpre e (List.mem_cons_self e pre)
    have hbf : (l == some L) = false := by simpa using hlne
    have ih2 := ih (fun x hx => hpre x (List.mem_cons_of_mem _ hx))
    simp [mergeTaskRec, hle, hbf, ih2]

/-- After a successful merge, the merged task is the first match of its own
label in the result. -/
theorem firstLabeled_of_mergeTaskRec (L : String) (t : Json)
    (_hl : labelOf t = .ok (some L)) :
    ∀ ts ts2, mergeTaskRec (some L) t ts = .ok ts2 → FirstLabeled L t ts2 := by
  intro ts
  induction ts with
  | nil =>
    intro ts2 h
    simp [mergeTaskRec] at h
    exact ⟨[], [], by simp [← h], by simp⟩
  | cons et ts ih =>
    intro ts2 h
    cases hle : labelOf et with
    | error e => simp [mergeTaskRec, hle] at h
    | ok l =>
      by_cases hbeq : (l == some L) = true
      · simp [mergeTaskRec, hle, hbeq] at h
        exact ⟨[], ts, by simp [← h], by simp⟩
      · have hbf : (l == some L) = false := by simpa using hbeq
        cases hm : mergeTaskRec (some L) t ts with
        | error e => simp [mergeTaskRec, hle, hbf, hm] at h
        | ok r =>
          simp [mergeTaskRec, hle, hbf, hm] at h
          obtain ⟨pre, post, hr, hpre⟩ := ih r hm
          refine ⟨et :: pre, post, by simp [← h, hr], ?_⟩
          intro e he
          rcases List.mem_cons.mp he with rfl | he2
          · exact ⟨l, hle, by simpa using hbf⟩
          · exact hpre e he2

/-- Merging a task with a different label preserves "first match of label
`L` is `t`". -/
theorem firstLabeled_preserve (L : String) (t : Json) (L2 : String) (t2 : Json)
    (hl : labelOf t = .ok (some L)) (hl2 : labelOf t2 = .ok (some L2)) (hne : L2 ≠ L) :
    ∀ pre post ts2,
      (∀ e ∈ pre, ∃ l, labelOf e = .ok l ∧ l ≠ some L) →
      mergeTaskRec (some L2) t2 (pre ++ t :: post) = .ok ts2 →
      FirstLabeled L t ts2 := by
  intro pre
  induction pre with
  | nil =>
    intro post ts2 _ hm
    have hbf : ((some L : Option String) == some L2) = false := by
      simp [hne.symm]
    cases hr : mergeTaskRec (some L2) t2 post with
    | error e => simp [mergeTaskRec, hl, hbf, hr] at hm
    | ok r =>
      simp [mergeTaskRec, hl, hbf, hr] at hm
      exact ⟨[], r, by simp [← hm], by simp⟩
  | cons e pre ih =>
    intro post ts2 hpre hm
    obtain ⟨l, hle, hlne⟩ := hpre e (List.mem_cons_self e pre)
    by_cases hbeq : (l == some L2) = true
    · simp [mergeTaskRec, hle, hbeq] at hm
      refine ⟨t2 :: pre, post, by simp [← hm], ?_⟩
      intro x hx
      rcases List.mem_cons.mp hx with rfl | hx2
      · exact ⟨some L2, hl2, by simpa using hne⟩
      · exact hpre x (List.mem_cons_of_mem _ hx2)
    · have hbf : (l == some L2) = false := by simpa using hbeq
      cases hr : mergeTaskRec (some L2) t2 (pre ++ t :: post) with
      | error e2 => simp [mergeTaskRec, hle, hbf, hr] at hm
      | ok r =>
        simp [mergeTaskRec, hle, hbf, hr] at hm
        obtain ⟨pre2, post2, hr2, hpre2⟩ :=
          ih post r (fun x hx => hpre x (List.mem_cons_of_mem _ hx)) hr
        refine ⟨e :: pre2, post2, by simp [← hm, hr2], ?_⟩
        intro x hx
        rcases List.mem_cons.mp hx with rfl | hx2
        · exact ⟨l, hle, hlne⟩
        · exact hpre2 x hx2

/-- `mergeNewTasks` unfolded into its four `mergeTaskRec` stages. -/
theorem mergeNewTasks_eq (p : WorkspacePaths) (ts : List Json) :
    mergeNewTasks p ts =
      match mergeTaskRec (some TASK_GENERATE) (generateTask p) ts with
      | .error e => .error e
      | .ok ts1 =>
        match mergeTaskRec (some TASK_UHT) (uhtTask p) ts1 with
        | .error e => .error e
        | .ok ts2 =>
          match mergeTaskRec (some "Restart Clangd") restartClangdTask ts2 with
          | .error e => .error e
          | .ok ts3 => mergeTaskRec (some TASK_COMPOUND) fixHeadersTask ts3 := rfl

/-- A successful `mergeNewTasks` run decomposed into its four stages. -/
theorem mergeNewTasks_stages (p : WorkspacePaths) (ts ts4 : List Json)
    (h : mergeNewTasks p ts = .ok ts4) :
    ∃ ts1 ts2 ts3,
      mergeTaskRec (some TASK_GENERATE) (generateTask p) ts = .ok ts1 ∧
      mergeTaskRec (some TASK_UHT) (uhtTask p) ts1 = .ok ts2 ∧
      mergeTaskRec (some "Restart Clangd") restartClangdTask ts2 = .ok ts3 ∧
      mergeTaskRec (some TASK_COMPOUND) fixHeadersTask ts3 = .ok ts4 := by
  rw [mergeNewTasks_eq] at h
  cases h1 : mergeTaskRec (some TASK_GENERATE) (generateTask p) ts with
  | error e => simp [h1] at h
  | ok a =>
    simp only [h1] at h
    cases h2 : mergeTaskRec (some TASK_UHT) (uhtTask p) a with
    | error e => simp [h2] at h
    | ok b =>
      simp only [h2] at h
      cases h3 : mergeTaskRec (some "Restart Clangd") restartClangdTask b with
      | error e => simp [h3] at h
      | ok c =>
        simp only [h3] at h
        exact ⟨a, b, c, rfl, h2, h3, h⟩


/-- Core idempotence: merging the four task definitions a second time into a
task array they were already merged into changes nothing. -/
theorem mergeNewTasks_idem (p : WorkspacePaths) (ts ts4 : List Json)
    (h : mergeNewTasks p ts = .ok ts4) : mergeNewTasks p ts4 = .ok ts4 := by
  obtain ⟨a, b, c, h1, h2, h3, h4⟩ := mergeNewTasks_stages p ts ts4 h
  have hG : FirstLabeled TASK_GENERATE (generateTask p) ts4 := by
    have f1 := firstLabeled_of_mergeTaskRec _ _ (labelOf_generateTask p) _ _ h1
    obtain ⟨pre, post, rfl, hpre⟩ := f1
    have f2 := firstLabeled_preserve _ _ _ _ (labelOf_generateTask p) (labelOf_uhtTask p)
      (by decide) pre post b hpre h2
    obtain ⟨pre2, post2, rfl, hpre2⟩ := f2
    have f3 := firstLabeled_preserve _ _ _ _ (labelOf_generateTask p) labelOf_restartClangdTask
      (by decide) pre2 post2 c hpre2 h3
    obtain ⟨pre3, post3, rfl, hpre3⟩ := f3
    exact firstLabeled_preserve _ _ _ _ (labelOf_generateTask p) labelOf_fixHeadersTask
      (by decide) pre3 post3 ts4 hpre3 h4
  have hU : FirstLabeled TASK_UHT (uhtTask p) ts4 := by
    have f2 := firstLabeled_of_mergeTaskRec _ _ (labelOf_uhtTask p) _ _ h2
    obtain ⟨pre2, post2, rfl, hpre2⟩ := f2
    have f3 := firstLabeled_preserve _ _ _ _ (labelOf_uhtTask p) labelOf_restartClangdTask
      (by decide) pre2 post2 c hpre2 h3
    obtain ⟨pre3, post3, rfl, hpre3⟩ := f3
    exact firstLabeled_preserve _ _ _ _ (labelOf_uhtTask p) labelOf_fixHeadersTask
      (by decide) pre3 post3 ts4 hpre3 h4
  have hR : FirstLabeled "Restart Clangd" restartClangdTask ts4 := by
    have f3 := firstLabeled_of_mergeTaskRec _ _ labelOf_restartClangdTask _ _ h3
    obtain ⟨pre3, post3, rfl, hpre3⟩ := f3
    exact firstLabeled_preserve _ _ _ _ labelOf_restartClangdTask labelOf_fixHeadersTask
      (by decide) pre3 post3 ts4 hpre3 h4
  have hC : FirstLabeled TASK_COMPOUND fixHeadersTask ts4 :=
    firstLabeled_of_mergeTaskRec _ _ labelOf_fixHeadersTask _ _ h4
  have m1 := mergeTaskRec_of_firstLabeled _ _ (labelOf_generateTask p) ts4 hG
  have m2 := mergeTaskRec_of_firstLabeled _ _ (labelOf_uhtTask p) ts4 hU
  have m3 := mergeTaskRec_of_firstLabeled _ _ labelOf_restartClangdTask ts4 hR
  have m4 := mergeTaskRec_of_firstLabeled _ _ labelOf_fixHeadersTask ts4 hC
  rw [mergeNewTasks_eq]
  simp only [m1, m2, m3, m4]

/-! ### Lemmas about object-field update and the full `injectTasks` run -/

theorem lookupField_setField_self (fields : List (String × Json)) (k : String) (v : Json) :
    lookupField (setField fields k v) k = some v := by
  induction fields with
  | nil => simp [setField, lookupField]
  | cons kv fields ih =>
    by_cases hk : (kv.1 == k) = true
    · simp [setField, lookupField, hk]
    · have hk2 : (kv.1 == k) = false := by simpa using hk
      simpa [setField, lookupField, hk2] using ih

theorem lookupField_setField_ne (fields : List (String × Json)) (k k2 : String) (v : Json)
    (h : k2 ≠ k) : lookupField (setField fields k v) k2 = lookupField fields k2 := by
  induction fields with
  | nil => simp [setField, lookupField, beq_eq_false_iff_ne.mpr h.symm]
  | cons kv fields ih =>
    by_cases hk : (kv.1 == k) = true
    · have hkv : kv.1 = k := by simpa using hk
      simp [setField, lookupField, hk, hkv, beq_eq_false_iff_ne.mpr h.symm,
        beq_eq_false_iff_ne.mpr (hkv ▸ h.symm : kv.1 ≠ k2).symm]
    · have hk2 : (kv.1 == k) = false := by simpa using hk
      by_cases hq : (kv.1 == k2) = true
      · simp [setField, lookupField, hk2, hq]
      · have hq2 : (kv.1 == k2) = false := by simpa using hq
        simpa [setField, lookupField, hk2, hq2] using ih

theorem setField_idem (fields : List (String × Json)) (k : String) (v : Json) :
    setField (setField fields k v) k v = setField fields k v := by
  induction fields with
  | nil => simp [setField]
  | cons kv fields ih =>
    by_cases hk : (kv.1 == k) = true
    · simp [setField, hk]
    · have hk2 : (kv.1 == k) = false := by simpa using hk
      simp [setField, hk2, ih]

/-- Merging into an empty task array appends the four tasks in order. -/
theorem mergeNewTasks_nil (p : WorkspacePaths) : mergeNewTasks p [] = .ok (newTasks p) := rfl

/-- The injected default manifest: version tag plus exactly the four tasks. -/
def defaultInjected (p : WorkspacePaths) : Json :=
  .obj [("version", .str "2.0.0"), ("tasks", .arr (newTasks p))]

theorem injectTasks_absent (p : WorkspacePaths) :
    injectTasks p .absent = ⟨some (defaultInjected p), false, false⟩ := rfl

theorem injectTasks_malformed (p : WorkspacePaths) :
    injectTasks p .malformed = ⟨some (defaultInjected p), true, false⟩ := rfl

/-- Computation of a full `injectTasks` run on a parsed object manifest whose
`tasks` field is an array. -/
theorem injectTasks_parsed_obj (p : WorkspacePaths) (fields : List (String × Json))
    (ts ts2 : List Json)
    (hlk : lookupField fields "tasks" = some (.arr ts))
    (hm : mergeNewTasks p ts = .ok ts2) :
    injectTasks p (.parsed (.obj fields)) =
      ⟨some (.obj (setField fields "tasks" (.arr ts2))), false, false⟩ := by
  unfold injectTasks manifestAfterRead
  simp [hlk, jsTruthy, hm]

/-- Read phase on a parsed object whose `tasks` field is truthy: kept as is. -/
theorem manifestAfterRead_obj_truthy (fields : List (String × Json)) (v : Json)
    (hlk : lookupField fields "tasks" = some v) (ht : jsTruthy v = true) :
    manifestAfterRead (.parsed (.obj fields)) = (.obj fields, false) := by
  simp [manifestAfterRead, hlk, ht]

/-- Read phase on a parsed object whose `tasks` field is falsy: replaced by
the empty array. -/
theorem manifestAfterRead_obj_falsy (fields : List (String × Json)) (v : Json)
    (hlk : lookupField fields "tasks" = some v) (ht : jsTruthy v = false) :
    manifestAfterRead (.parsed (.obj fields)) =
      (.obj (setField fields "tasks" (.arr [])), false) := by
  simp [manifestAfterRead, hlk, ht]

/-- Read phase on a parsed object without a `tasks` field: the empty array is
added. -/
theorem manifestAfterRead_obj_none (fields : List (String × Json))
    (hlk : lookupField fields "tasks" = none) :
    manifestAfterRead (.parsed (.obj fields)) =
      (.obj (setField fields "tasks" (.arr [])), false) := by
  simp [manifestAfterRead, hlk]

/-- `injectTasks` after a read phase that produced an object. -/
theorem injectTasks_of_read_obj (p : WorkspacePaths) (f : FileContent)
    (fields : List (String × Json)) (w : Bool)
    (hr : manifestAfterRead f = (.obj fields, w)) :
    injectTasks p f =
      match lookupField fields "tasks" with
      | some (.arr ts) =>
        match mergeNewTasks p ts with
        | .ok ts2 => ⟨some (.obj (setField fields "tasks" (.arr ts2))), w, false⟩
        | .error _ => ⟨none, w, false⟩
      | _ => ⟨none, w, false⟩ := by
  unfold injectTasks
  rw [hr]

/-- Inversion of a successful `injectTasks` run on a parsed object manifest:
- the read phase yields the original fields, except that a missing or falsy
  `tasks` field is replaced by the empty array;
- those fields hold a `tasks` array `ts` that merges successfully to `ts2`;
- and the written value replaces that `tasks` field with the merged array. -/
theorem injectTasks_parsed_obj_inv (p : WorkspacePaths) (fields : List (String × Json))
    (j : Json) (h : (injectTasks p (.parsed (.obj fields))).written = some j) :
    ∃ fields1 ts ts2,
      (fields1 = fields ∨ fields1 = setField fields "tasks" (.arr [])) ∧
      lookupField fields1 "tasks" = some (.arr ts) ∧
      mergeNewTasks p ts = .ok ts2 ∧
      j = .obj (setField fields1 "tasks" (.arr ts2)) := by
  cases hlk : lookupField fields "tasks" with
  | none =>
    rw [injectTasks_of_read_obj p _ _ false (manifestAfterRead_obj_none fields hlk)] at h
    rw [lookupField_setField_self fields "tasks" (.arr [])] at h
    cases hm : mergeNewTasks p ([] : List Json) with
    | error e => simp [hm] at h
    | ok ts2 =>
      simp only [hm] at h
      exact ⟨setField fields "tasks" (.arr []), [], ts2, Or.inr rfl,
        lookupField_setField_self fields "tasks" (.arr []), hm, by simpa using h.symm⟩
  | some v =>
    by_cases ht : jsTruthy v = true
    · rw [injectTasks_of_read_obj p _ _ false
        (manifestAfterRead_obj_truthy fields v hlk ht)] at h
      cases v with
      | arr ts =>
        rw [hlk] at h
        cases hm : mergeNewTasks p ts with
        | error e => simp [hm] at h
        | ok ts2 =>
          simp only [hm] at h
          exact ⟨fields, ts, ts2, Or.inl rfl, hlk, hm, by simpa using h.symm⟩
      | null => simp [hlk] at h
      | bool b => simp [hlk] at h
      | num n => simp [hlk] at h
      | str s => simp [hlk] at h
      | obj fs => simp [hlk] at h
    · have ht2 : jsTruthy v = false := by simpa using ht
      rw [injectTasks_of_read_obj p _ _ false
        (manifestAfterRead_obj_falsy fields v hlk ht2)] at h
      rw [lookupField_setField_self fields "tasks" (.arr [])] at h
      cases hm : mergeNewTasks p ([] : List Json) with
      | error e => simp [hm] at h
      | ok ts2 =>
        simp only [hm] at h
        exact ⟨setField fields "tasks" (.arr []), [], ts2, Or.inr rfl,
          lookupField_setField_self fields "tasks" (.arr []), hm, by simpa using h.symm⟩

/-- A second injection on the default injected manifest changes nothing. -/
theorem injectTasks_default_parsed (p : WorkspacePaths) :
    (injectTasks p (.parsed (defaultInjected p))).written = some (defaultInjected p) := by
  have hm : mergeNewTasks p (newTasks p) = .ok (newTasks p) :=
    mergeNewTasks_idem p [] (newTasks p) (mergeNewTasks_nil p)
  have hcalc := injectTasks_parsed_obj p
    [("version", .str "2.0.0"), ("tasks", .arr (newTasks p))] (newTasks p) (newTasks p) rfl hm
  show (injectTasks p (.parsed (.obj [("version", .str "2.0.0"),
    ("tasks", .arr (newTasks p))]))).written = some (defaultInjected p)
  rw [hcalc]
  rfl

/-- A second injection on any manifest written by a successful merge changes
nothing. -/
theorem injectTasks_written_again (p : WorkspacePaths) (fields1 : List (String × Json))
    (ts ts2 : List Json) (hm : mergeNewTasks p ts = .ok ts2) :
    (injectTasks p (.parsed (.obj (setField fields1 "tasks" (.arr ts2))))).written =
      some (.obj (setField fields1 "tasks" (.arr ts2))) := by
  have hidem := mergeNewTasks_idem p ts ts2 hm
  have hcalc := injectTasks_parsed_obj p (setField fields1 "tasks" (.arr ts2)) ts2 ts2
    (lookupField_setField_self fields1 "tasks" (Json.arr ts2)) hidem
  rw [hcalc, setField_idem]

/-- A parsed top-level array is written back unchanged (the phantom `tasks`
property added to the array object is dropped by `JSON.stringify`). -/
theorem injectTasks_parsed_arr (p : WorkspacePaths) (xs : List Json) :
    injectTasks p (.parsed (.arr xs)) = ⟨some (.arr xs), false, false⟩ := rfl

/-- A parsed top-level `null` makes the `tasks` property access throw inside
the read `try`, falling back to the default manifest. -/
theorem injectTasks_parsed_null (p : WorkspacePaths) :
    injectTasks p (.parsed .null) = ⟨some (defaultInjected p), true, false⟩ := rfl

/-- A parsed top-level boolean falls back to the default manifest. -/
theorem injectTasks_parsed_bool (p : WorkspacePaths) (b : Bool) :
    injectTasks p (.parsed (.bool b)) = ⟨some (defaultInjected p), true, false⟩ := rfl

/-- A parsed top-level number falls back to the default manifest. -/
theorem injectTasks_parsed_num (p : WorkspacePaths) (n : Int) :
    injectTasks p (.parsed (.num n)) = ⟨some (defaultInjected p), true, false⟩ := rfl

/-- A parsed top-level string falls back to the default manifest. -/
theorem injectTasks_parsed_str (p : WorkspacePaths) (s : String) :
    injectTasks p (.parsed (.str s)) = ⟨some (defaultInjected p), true, false⟩ := rfl

/-- Claim C2: task injection is idempotent.  For every fixed resolved-paths
input and every initial manifest-file state, if the first run rewrites the
manifest file (with the serialization of `j`), then a second run — which
reads back exactly that file, `.parsed j`, since nothing edits the file in
between — rewrites it with the very same value `j`, hence with
byte-identical serialized content. -/
theorem injectTasks_idempotent (p : WorkspacePaths) (f : FileContent) (j : Json)
    (h : (injectTasks p f).written = some j) :
    (injectTasks p (.parsed j)).written = some j ∧
      (injectTasks p (.parsed j)).written.map Json.serialize = some (Json.serialize j) := by
  suffices hs : (injectTasks p (.parsed j)).written = some j by
    refine ⟨hs, ?_⟩
    rw [hs]
    rfl
  cases f with
  | absent =>
    have hj : defaultInjected p = j := by
      rw [injectTasks_absent] at h
      simpa using h
    rw [← hj]
    exact injectTasks_default_parsed p
  | malformed =>
    have hj : defaultInjected p = j := by
      rw [injectTasks_malformed] at h
      simpa using h
    rw [← hj]
    exact injectTasks_default_parsed p
  | parsed j0 =>
    cases j0 with
    | obj fields =>
      obtain ⟨fields1, ts, ts2, _, _, hm, rfl⟩ := injectTasks_parsed_obj_inv p fields j h
      exact injectTasks_written_again p fields1 ts ts2 hm
    | arr xs =>
      have hj : Json.arr xs = j := by
        rw [injectTasks_parsed_arr] at h
        simpa using h
      rw [← hj]
      rfl
    | null =>
      have hj : defaultInjected p = j := by
        rw [injectTasks_parsed_null] at h
        simpa using h
      rw [← hj]
      exact injectTasks_default_parsed p
    | bool b =>
      have hj : defaultInjected p = j := by
        rw [injectTasks_parsed_bool] at h
        simpa using h
      rw [← hj]
      exact injectTasks_default_parsed p
    | num n =>
      have hj : defaultInjected p = j := by
        rw [injectTasks_parsed_num] at h
        simpa using h
      rw [← hj]
      exact injectTasks_default_parsed p
    | str s =>
      have hj : defaultInjected p = j := by
        rw [injectTasks_parsed_str] at h
        simpa using h
      rw [← hj]
      exact injectTasks_default_parsed p

/-! ### Counting and membership lemmas for the merge -/

theorem hasLabel_true_of_labelOf (e : Json) (L : String)
    (hle : labelOf e = .ok (some L)) : hasLabel e L = true := by
  simp [hasLabel, hle]

theorem hasLabel_false_of_labelOf_ne (e : Json) (l : Option String) (L : String)
    (hle : labelOf e = .ok l) (hne : l ≠ some L) : hasLabel e L = false := by
  cases l with
  | none => simp [hasLabel, hle]
  | some s =>
    have hs : s ≠ L := fun hc => hne (by rw [hc])
    simp [hasLabel, hle, hs]

/-- Effect of one merge on the label counts: counts of other labels are
unchanged, and the merged label's count becomes one when it was zero and is
otherwise unchanged. -/
theorem mergeTaskRec_count (L : String) (t : Json) (hl : labelOf t = .ok (some L)) :
    ∀ ts ts2, mergeTaskRec (some L) t ts = .ok ts2 →
      (∀ L2, L2 ≠ L → countLabel L2 ts2 = countLabel L2 ts) ∧
      countLabel L ts2 = if countLabel L ts = 0 then 1 else countLabel L ts := by
  intro ts
  induction ts with
  | nil =>
    intro ts2 h
    simp [mergeTaskRec] at h
    subst h
    constructor
    · intro L2 hne
      have hpt : hasLabel t L2 = false :=
        hasLabel_false_of_labelOf_ne t (some L) L2 hl (by simpa using fun hc => hne hc.symm)
      simp [countLabel, hpt]
    · simp [countLabel, hasLabel_true_of_labelOf t L hl]
  | cons et ts ih =>
    intro ts2 h
    cases hle : labelOf et with
    | error e => simp [mergeTaskRec, hle] at h
    | ok l =>
      by_cases hbeq : (l == some L) = true
      · have hleq : l = some L := by simpa using hbeq
        subst hleq
        simp only [mergeTaskRec, hle, beq_self_eq_true, if_pos rfl] at h
        have h2 : ts2 = t :: ts := by simpa using h.symm
        subst h2
        constructor
        · intro L2 hne
          have hne2 : (some L : Option String) ≠ some L2 := by
            simpa using fun hc => hne hc.symm
          have hpt : hasLabel t L2 = false :=
            hasLabel_false_of_labelOf_ne t (some L) L2 hl hne2
          have hpe : hasLabel et L2 = false :=
            hasLabel_false_of_labelOf_ne et (some L) L2 hle hne2
          simp [countLabel, List.countP_cons, hpt, hpe]
        · have hpt : hasLabel t L = true := hasLabel_true_of_labelOf t L hl
          have hpe : hasLabel et L = true := hasLabel_true_of_labelOf et L hle
          simp [countLabel, List.countP_cons, hpt, hpe]
      · have hbf : (l == some L) = false := by simpa using hbeq
        have hlne : l ≠ some L := by simpa using hbf
        cases hm : mergeTaskRec (some L) t ts with
        | error e => simp [mergeTaskRec, hle, hbf, hm] at h
        | ok r =>
          simp only [mergeTaskRec, hle, hbf, hm, Bool.false_eq_true, if_false] at h
          have h2 : ts2 = et :: r := by simpa using h.symm
          subst h2
          obtain ⟨ihother, ihsame⟩ := ih r hm
          constructor
          · intro L2 hne
            simp only [countLabel, List.countP_cons] at ihother ⊢
            rw [ihother L2 hne]
          · have hpe : hasLabel et L = false :=
              hasLabel_false_of_labelOf_ne et l L hle hlne
            simp only [countLabel, List.countP_cons, hpe] at ihsame ⊢
            simp [ihsame]

/-- A merge never removes an entry that does not carry the merged label. -/
theorem mergeTaskRec_mem (L : String) (t e : Json) (hpred : hasLabel e L = false) :
    ∀ ts ts2, mergeTaskRec (some L) t ts = .ok ts2 → e ∈ ts → e ∈ ts2 := by
  intro ts
  induction ts with
  | nil => intro ts2 _ hc; cases hc
  | cons et ts ih =>
    intro ts2 h hmem
    cases hle : labelOf et with
    | error e2 => simp [mergeTaskRec, hle] at h
    | ok l =>
      by_cases hbeq : (l == some L) = true
      · have hleq : l = some L := by simpa using hbeq
        subst hleq
        simp only [mergeTaskRec, hle, beq_self_eq_true, if_pos rfl] at h
        have h2 : ts2 = t :: ts := by simpa using h.symm
        subst h2
        rcases List.mem_cons.mp hmem with rfl | hmem2
        · rw [hasLabel_true_of_labelOf e L hle] at hpred
          cases hpred
        · exact List.mem_cons_of_mem t hmem2
      · have hbf : (l == some L) = false := by simpa using hbeq
        cases hm : mergeTaskRec (some L) t ts with
        | error e2 => simp [mergeTaskRec, hle, hbf, hm] at h
        | ok r =>
          simp only [mergeTaskRec, hle, hbf, hm, Bool.false_eq_true, if_false] at h
          have h2 : ts2 = et :: r := by simpa using h.symm
          subst h2
          rcases List.mem_cons.mp hmem with rfl | hmem2
          · exact List.mem_cons_self e r
          · exact List.mem_cons_of_mem et (ih r hm hmem2)

/-- On a task array none of whose entries is `null` (every label read
succeeds), a merge succeeds and preserves that property. -/
theorem mergeTaskRec_total (L : String) (t : Json) (hl : labelOf t = .ok (some L)) :
    ∀ ts, (∀ e ∈ ts, ∃ l, labelOf e = .ok l) →
      ∃ ts2, mergeTaskRec (some L) t ts = .ok ts2 ∧ ∀ e ∈ ts2, ∃ l, labelOf e = .ok l := by
  intro ts
  induction ts with
  | nil =>
    intro _
    exact ⟨[t], by simp [mergeTaskRec], by
      intro e he
      rcases List.mem_singleton.mp he with rfl
      exact ⟨some L, hl⟩⟩
  | cons et ts ih =>
    intro hok
    obtain ⟨l, hle⟩ := hok et (List.mem_cons_self et ts)
    by_cases hbeq : (l == some L) = true
    · refine ⟨t :: ts, by simp [mergeTaskRec, hle, hbeq], ?_⟩
      intro e he
      rcases List.mem_cons.mp he with rfl | he2
      · exact ⟨some L, hl⟩
      · exact hok e (List.mem_cons_of_mem et he2)
    · have hbf : (l == some L) = false := by simpa using hbeq
      obtain ⟨r, hm, hokr⟩ := ih (fun e he => hok e (List.mem_cons_of_mem et he))
      refine ⟨et :: r, by simp [mergeTaskRec, hle, hbf, hm], ?_⟩
      intro e he
      rcases List.mem_cons.mp he with rfl | he2
      · exact ⟨l, hle⟩
      · exact hokr e he2

/-- Claim C1 (amended): on an existing parseable manifest whose task array
has no `null` entry, contains an unrelated task labeled `"Foo"`, and has no
duplicated required label, one injection rewrites the manifest with the
`"Foo"` task still present unchanged, each of the four required labels
present exactly once, and the count of every non-required label exactly as
before (no duplicates introduced). -/
theorem injectTasks_preserves_unrelated (p : WorkspacePaths)
    (fields : List (String × Json)) (ts : List Json) (t : Json)
    (hlk : lookupField fields "tasks" = some (.arr ts))
    (hmem : t ∈ ts)
    (hfoo : labelOf t = .ok (some "Foo"))
    (hok : ∀ e ∈ ts, ∃ l, labelOf e = .ok l)
    (hnodup : ∀ L ∈ requiredLabels, countLabel L ts ≤ 1) :
    ∃ ts2, (injectTasks p (.parsed (.obj fields))).written =
        some (.obj (setField fields "tasks" (.arr ts2))) ∧
      t ∈ ts2 ∧
      (∀ L ∈ requiredLabels, countLabel L ts2 = 1) ∧
      (∀ L, L ∉ requiredLabels → countLabel L ts2 = countLabel L ts) := by
  obtain ⟨a, hm1, hok1⟩ :=
    mergeTaskRec_total TASK_GENERATE (generateTask p) (labelOf_generateTask p) ts hok
  obtain ⟨b, hm2, hok2⟩ :=
    mergeTaskRec_total TASK_UHT (uhtTask p) (labelOf_uhtTask p) a hok1
  obtain ⟨c, hm3, hok3⟩ :=
    mergeTaskRec_total "Restart Clangd" restartClangdTask labelOf_restartClangdTask b hok2
  obtain ⟨d, hm4, _⟩ :=
    mergeTaskRec_total TASK_COMPOUND fixHeadersTask labelOf_fixHeadersTask c hok3
  have hmerged : mergeNewTasks p ts = .ok d := by
    rw [mergeNewTasks_eq]
    simp only [hm1, hm2, hm3, hm4]
  have cnt1 := mergeTaskRec_count TASK_GENERATE (generateTask p) (labelOf_generateTask p)
    ts a hm1
  have cnt2 := mergeTaskRec_count TASK_UHT (uhtTask p) (labelOf_uhtTask p) a b hm2
  have cnt3 := mergeTaskRec_count "Restart Clangd" restartClangdTask
    labelOf_restartClangdTask b c hm3
  have cnt4 := mergeTaskRec_count TASK_COMPOUND fixHeadersTask labelOf_fixHeadersTask
    c d hm4
  refine ⟨d, ?_, ?_, ?_, ?_⟩
  · rw [injectTasks_parsed_obj p fields ts d hlk hmerged]
  · have p1 : hasLabel t TASK_GENERATE = false :=
      hasLabel_false_of_labelOf_ne t (some "Foo") TASK_GENERATE hfoo (by decide)
    have p2 : hasLabel t TASK_UHT = false :=
      hasLabel_false_of_labelOf_ne t (some "Foo") TASK_UHT hfoo (by decide)
    have p3 : hasLabel t "Restart Clangd" = false :=
      hasLabel_false_of_labelOf_ne t (some "Foo") "Restart Clangd" hfoo (by decide)
    have p4 : hasLabel t TASK_COMPOUND = false :=
      hasLabel_false_of_labelOf_ne t (some "Foo") TASK_COMPOUND hfoo (by decide)
    exact mergeTaskRec_mem TASK_COMPOUND fixHeadersTask t p4 c d hm4
      (mergeTaskRec_mem "Restart Clangd" restartClangdTask t p3 b c hm3
        (mergeTaskRec_mem TASK_UHT (uhtTask p) t p2 a b hm2
          (mergeTaskRec_mem TASK_GENERATE (generateTask p) t p1 ts a hm1 hmem)))
  · have hG : countLabel TASK_GENERATE d = 1 := by
      rw [cnt4.1 TASK_GENERATE (by decide), cnt3.1 TASK_GENERATE (by decide),
        cnt2.1 TASK_GENERATE (by decide), cnt1.2]
      have := hnodup TASK_GENERATE (by simp [requiredLabels])
      split <;> omega
    have hU : countLabel TASK_UHT d = 1 := by
      rw [cnt4.1 TASK_UHT (by decide), cnt3.1 TASK_UHT (by decide), cnt2.2,
        cnt1.1 TASK_UHT (by decide)]
      have := hnodup TASK_UHT (by simp [requiredLabels])
      split <;> omega
    have hR : countLabel "Restart Clangd" d = 1 := by
      rw [cnt4.1 "Restart Clangd" (by decide), cnt3.2, cnt2.1 "Restart Clangd" (by decide),
        cnt1.1 "Restart Clangd" (by decide)]
      have := hnodup "Restart Clangd" (by simp [requiredLabels])
      split <;> omega
    have hC : countLabel TASK_COMPOUND d = 1 := by
      rw [cnt4.2, cnt3.1 TASK_COMPOUND (by decide), cnt2.1 TASK_COMPOUND (by decide),
        cnt1.1 TASK_COMPOUND (by decide)]
      have := hnodup TASK_COMPOUND (by simp [requiredLabels])
      split <;> omega
    intro L hL
    simp only [requiredLabels, List.mem_cons, List.not_mem_nil, or_false] at hL
    rcases hL with rfl | rfl | rfl | rfl
    · exact hG
    · exact hU
    · exact hR
    · exact hC
  · intro L hL
    simp only [requiredLabels, List.mem_cons, List.not_mem_nil, or_false] at hL
    push_neg at hL
    obtain ⟨n1, n2, n3, n4⟩ := hL
    rw [cnt4.1 L n4, cnt3.1 L n3, cnt2.1 L n2, cnt1.1 L n1]

/-- Claim C3: on a malformed (non-JSON-parseable) manifest file, injection
does not abort: it emits only the parse `console.warn` (no user-visible
message), falls back to the fresh empty manifest, and rewrites the file with
the version tag and exactly the four required task definitions and nothing
else. -/
theorem injectTasks_malformed_fallback (p : WorkspacePaths) :
    (injectTasks p .malformed).written =
      some (.obj [("version", .str "2.0.0"), ("tasks", .arr (newTasks p))]) ∧
    (injectTasks p .malformed).parseWarned = true ∧
    (injectTasks p .malformed).userMessageShown = false :=
  ⟨rfl, rfl, rfl⟩

/-- Claim C10: on any manifest that parses as a JSON object, a (completed)
injection only changes the `tasks` field: every other top-level field,
`version` in particular, is looked up identically in the rewritten object. -/
theorem injectTasks_frame (p : WorkspacePaths) (fields : List (String × Json)) (j : Json)
    (h : (injectTasks p (.parsed (.obj fields))).written = some j) :
    ∃ gs, j = .obj gs ∧
      (∀ k, k ≠ "tasks" → lookupField gs k = lookupField fields k) ∧
      lookupField gs "version" = lookupField fields "version" := by
  obtain ⟨fields1, ts, ts2, hf1, _, _, rfl⟩ := injectTasks_parsed_obj_inv p fields j h
  have hall : ∀ k, k ≠ "tasks" →
      lookupField (setField fields1 "tasks" (.arr ts2)) k = lookupField fields k := by
    intro k hk
    rw [lookupField_setField_ne fields1 "tasks" k (.arr ts2) hk]
    rcases hf1 with rfl | rfl
    · rfl
    · exact lookupField_setField_ne fields "tasks" k (.arr []) hk
  exact ⟨setField fields1 "tasks" (.arr ts2), rfl, hall, hall "version" (by decide)⟩

/-- A concrete unrelated task labeled `"Foo"`. -/
def fooTask : Json :=
  .obj [("label", .str "Foo"), ("type", .str "shell"), ("command", .str "echo")]

/-- A concrete resolved-paths input. -/
def samplePaths : WorkspacePaths := ⟨"/proj", "/eng", "Game"⟩

/-- A concrete manifest object holding only the `"Foo"` task. -/
def sampleFields : List (String × Json) :=
  [("version", .str "2.0.0"), ("tasks", .arr [fooTask])]

theorem injectTasks_preserves_unrelated_witness :
    ∃ ts2, (injectTasks samplePaths (.parsed (.obj sampleFields))).written =
        some (.obj (setField sampleFields "tasks" (.arr ts2))) ∧
      fooTask ∈ ts2 ∧
      (∀ L ∈ requiredLabels, countLabel L ts2 = 1) ∧
      (∀ L, L ∉ requiredLabels → countLabel L ts2 = countLabel L [fooTask]) :=
  injectTasks_preserves_unrelated samplePaths sampleFields [fooTask] fooTask rfl
    (List.mem_singleton.mpr rfl) rfl
    (by
      intro e he
      rw [List.mem_singleton] at he
      subst he
      exact ⟨some "Foo", rfl⟩)
    (by decide)

/-- A concrete manifest object whose task array has a `null` entry followed
by the `"Foo"` task. -/
def nullEntryFields : List (String × Json) :=
  [("version", .str "2.0.0"), ("tasks", .arr [.null, fooTask])]

/-- Claim C1 counterexample: this manifest satisfies the claim's hypotheses
verbatim (it contains the unrelated `"Foo"` task and none of the four
required labels is duplicated — none occurs at all), yet injection crashes
on the `null` entry (property read on `null` throws inside the unprotected
`forEach`), writes nothing, and the manifest therefore still lacks the
generation-task label entirely instead of containing it exactly once. -/
theorem injectTasks_null_entry_counterexample :
    (fooTask ∈ [Json.null, fooTask] ∧ labelOf fooTask = .ok (some "Foo") ∧
      (∀ L ∈ requiredLabels, countLabel L [Json.null, fooTask] ≤ 1)) ∧
    (injectTasks samplePaths (.parsed (.obj nullEntryFields))).written = none ∧
    countLabel TASK_GENERATE [Json.null, fooTask] = 0 :=
  ⟨⟨List.mem_cons_of_mem _ (List.mem_singleton.mpr rfl), rfl, by decide⟩, rfl, by decide⟩

/-- A second concrete resolved-paths input. -/
def c2Paths : WorkspacePaths := ⟨"/proj2", "/eng2", "Demo"⟩

/-- The manifest value written by a first injection run at `c2Paths` over a
malformed file. -/
def c2Written : Json := (injectTasks c2Paths .malformed).written.getD .null

theorem injectTasks_idempotent_witness :
    (injectTasks c2Paths (.parsed c2Written)).written = some c2Written ∧
      (injectTasks c2Paths (.parsed c2Written)).written.map Json.serialize =
        some (Json.serialize c2Written) :=
  injectTasks_idempotent c2Paths .malformed c2Written rfl

/-- A concrete manifest object with an extra unrelated top-level field. -/
def c10Fields : List (String × Json) :=
  [("version", .str "2.0.0"), ("myCustom", .str "keep"), ("tasks", .arr [])]

/-- The manifest value written by injecting at `samplePaths` over
`c10Fields`. -/
def c10Written : Json :=
  (injectTasks samplePaths (.parsed (.obj c10Fields))).written.getD .null

theorem injectTasks_frame_witness :
    ∃ gs, c10Written = .obj gs ∧
      (∀ k, k ≠ "tasks" → lookupField gs k = lookupField c10Fields k) ∧
      lookupField gs "version" = lookupField c10Fields "version" :=
  injectTasks_frame samplePaths c10Fields c10Written rfl

/-! ### Lemmas about the workspace scan -/

/-- Any file found by the descriptor search ends in `.uproject`. -/
theorem findUproject_endsWith (f : Folder) (u : String) (h : findUproject f = some u) :
    strEndsWith u ".uproject" = true := by
  unfold findUproject at h
  have h2 := List.find?_some h
  simpa using h2

/-- Stripping the extension from a `.uproject` file name never yields the
empty string (the stem is nonempty, or the dotfile `.uproject` keeps its full
name). -/
theorem uprojectStem_ne_empty (u : String) (h : strEndsWith u ".uproject" = true) :
    uprojectStem u ≠ "" := by
  unfold uprojectStem
  by_cases he : u = ".uproject"
  · simp [he]
  · rw [if_neg he]
    obtain ⟨pre, hpre⟩ := List.isSuffixOf_iff_suffix.mp h
    have htake : u.toList.take (u.toList.length - 9) = pre := by
      rw [← hpre, List.length_append]
      have h9 : (".uproject".toList).length = 9 := by decide
      rw [h9, Nat.add_sub_cancel, List.take_left]
    rw [htake]
    intro hc
    have hnil : pre = [] := congrArg String.data hc
    apply he
    apply String.ext
    show u.toList = ".uproject".data
    rw [← hpre, hnil, List.nil_append]
    rfl

/-- Characterization of one scan iteration in terms of the folder's guards,
its descriptor search and its engine marker. -/
theorem scanFolder_fields (st : WorkspacePaths) (f : Folder) :
    ((scanFolder st f).projectRoot =
        if scannable f && (findUproject f).isSome then f.fsPath else st.projectRoot) ∧
    ((scanFolder st f).engineRoot =
        if scannable f && f.hasBuildBat then f.fsPath else st.engineRoot) ∧
    ((scanFolder st f).projectName =
        match (if scannable f then findUproject f else none) with
        | some u => uprojectStem u
        | none => st.projectName) := by
  unfold scanFolder scannable
  cases hs : f.statOk <;> cases hd : f.isDir <;> cases hr : f.readOk <;>
    cases hfu : findUproject f <;> cases hb : f.hasBuildBat <;>
      simp [hfu]

/-- A folder on which the scan records a project root and name: it passes
the guards and directly contains a descriptor file. -/
def folderHit (f : Folder) : Prop :=
  scannable f = true ∧ (findUproject f).isSome = true

instance (f : Folder) : Decidable (folderHit f) :=
  inferInstanceAs (Decidable (_ ∧ _))

/-- A folder on which the scan records an engine root: it passes the guards
and contains the engine marker script. -/
def folderEngineHit (f : Folder) : Prop :=
  scannable f = true ∧ f.hasBuildBat = true

instance (f : Folder) : Decidable (folderEngineHit f) :=
  inferInstanceAs (Decidable (_ ∧ _))

/-- The accumulated `projectRoot` is non-empty iff it started non-empty or
some scanned folder hit a descriptor. -/
theorem foldl_projectRoot_ne (l : List Folder) :
    ∀ st : WorkspacePaths, (∀ f ∈ l, f.fsPath ≠ "") →
      (((l.foldl scanFolder st).projectRoot ≠ "") ↔
        (st.projectRoot ≠ "" ∨ ∃ f ∈ l, folderHit f)) := by
  induction l with
  | nil => intro st _; simp
  | cons f l ih =>
    intro st hne
    rw [List.foldl_cons, ih (scanFolder st f) (fun g hg => hne g (List.mem_cons_of_mem f hg))]
    have hchar := (scanFolder_fields st f).1
    by_cases hhit : (scannable f && (findUproject f).isSome) = true
    · have hfh : folderHit f := by
        have h2 := hhit
        rw [Bool.and_eq_true] at h2
        exact h2
      have hfne := hne f (List.mem_cons_self f l)
      rw [hchar, if_pos hhit]
      constructor
      · intro _
        exact Or.inr ⟨f, List.mem_cons_self f l, hfh⟩
      · intro _
        exact Or.inl hfne
    · have hnothit : ¬ folderHit f := fun hp => hhit (by rw [Bool.and_eq_true]; exact hp)
      rw [hchar, if_neg hhit]
      constructor
      · rintro (h | ⟨g, hg, hgh⟩)
        · exact Or.inl h
        · exact Or.inr ⟨g, List.mem_cons_of_mem f hg, hgh⟩
      · rintro (h | ⟨g, hg, hgh⟩)
        · exact Or.inl h
        · rcases List.mem_cons.mp hg with rfl | hg2
          · exact absurd hgh hnothit
          · exact Or.inr ⟨g, hg2, hgh⟩

/-- The accumulated `engineRoot` is non-empty iff it started non-empty or
some scanned folder hit the engine marker. -/
theorem foldl_engineRoot_ne (l : List Folder) :
    ∀ st : WorkspacePaths, (∀ f ∈ l, f.fsPath ≠ "") →
      (((l.foldl scanFolder st).engineRoot ≠ "") ↔
        (st.engineRoot ≠ "" ∨ ∃ f ∈ l, folderEngineHit f)) := by
  induction l with
  | nil => intro st _; simp
  | cons f l ih =>
    intro st hne
    rw [List.foldl_cons, ih (scanFolder st f) (fun g hg => hne g (List.mem_cons_of_mem f hg))]
    have hchar := (scanFolder_fields st f).2.1
    by_cases hhit : (scannable f && f.hasBuildBat) = true
    · have hfh : folderEngineHit f := by
        have h2 := hhit
        rw [Bool.and_eq_true] at h2
        exact h2
      have hfne := hne f (List.mem_cons_self f l)
      rw [hchar, if_pos hhit]
      constructor
      · intro _
        exact Or.inr ⟨f, List.mem_cons_self f l, hfh⟩
      · intro _
        exact Or.inl hfne
    · have hnothit : ¬ folderEngineHit f :=
        fun hp => hhit (by rw [Bool.and_eq_true]; exact hp)
      rw [hchar, if_neg hhit]
      constructor
      · rintro (h | ⟨g, hg, hgh⟩)
        · exact Or.inl h
        · exact Or.inr ⟨g, List.mem_cons_of_mem f hg, hgh⟩
      · rintro (h | ⟨g, hg, hgh⟩)
        · exact Or.inl h
        · rcases List.mem_cons.mp hg with rfl | hg2
          · exact absurd hgh hnothit
          · exact Or.inr ⟨g, hg2, hgh⟩

/-- The accumulated `projectName` is non-empty iff it started non-empty or
some scanned folder hit a descriptor (a found stem is never empty). -/
theorem foldl_projectName_ne (l : List Folder) :
    ∀ st : WorkspacePaths,
      (((l.foldl scanFolder st).projectName ≠ "") ↔
        (st.projectName ≠ "" ∨ ∃ f ∈ l, folderHit f)) := by
  induction l with
  | nil => intro st; simp
  | cons f l ih =>
    intro st
    rw [List.foldl_cons, ih (scanFolder st f)]
    have hchar := (scanFolder_fields st f).2.2
    by_cases hsc : scannable f = true
    · cases hfu : findUproject f with
      | some u =>
        have hfh : folderHit f := ⟨hsc, by rw [hfu]; rfl⟩
        rw [hchar]
        rw [if_pos hsc, hfu]
        have hstem := uprojectStem_ne_empty u (findUproject_endsWith f u hfu)
        constructor
        · intro _
          exact Or.inr ⟨f, List.mem_cons_self f l, hfh⟩
        · intro _
          exact Or.inl hstem
      | none =>
        have hnothit : ¬ folderHit f := by
          rintro ⟨-, hp2⟩
          rw [hfu] at hp2
          simp at hp2
        rw [hchar, if_pos hsc, hfu]
        constructor
        · rintro (h | ⟨g, hg, hgh⟩)
          · exact Or.inl h
          · exact Or.inr ⟨g, List.mem_cons_of_mem f hg, hgh⟩
        · rintro (h | ⟨g, hg, hgh⟩)
          · exact Or.inl h
          · rcases List.mem_cons.mp hg with rfl | hg2
            · exact absurd hgh hnothit
            · exact Or.inr ⟨g, hg2, hgh⟩
    · have hnothit : ¬ folderHit f := fun hp => hsc hp.1
      rw [hchar, if_neg hsc]
      constructor
      · rintro (h | ⟨g, hg, hgh⟩)
        · exact Or.inl h
        · exact Or.inr ⟨g, List.mem_cons_of_mem f hg, hgh⟩
      · rintro (h | ⟨g, hg, hgh⟩)
        · exact Or.inl h
        · rcases List.mem_cons.mp hg with rfl | hg2
          · exact absurd hgh hnothit
          · exact Or.inr ⟨g, hg2, hgh⟩

/-- Claim C4: path resolution returns a non-absent result iff some scanned
folder yields the project root (and, with it, the project name: a found
descriptor's stem is never empty) and some scanned folder yields the engine
root; in particular, when either the descriptor or the engine marker is
missing everywhere, it returns `none`.  The hypothesis excludes the
degenerate empty folder path, which the host never produces (workspace
folder paths are absolute). -/
theorem getWorkspacePaths_isSome_iff (l : List Folder)
    (hne : ∀ f ∈ l, f.fsPath ≠ "") :
    (getWorkspacePaths (some l)).isSome = true ↔
      ((∃ f ∈ l, folderHit f) ∧ (∃ f ∈ l, folderEngineHit f)) := by
  have hpr : ((l.foldl scanFolder ⟨"", "", ""⟩).projectRoot ≠ "") ↔ ∃ f ∈ l, folderHit f := by
    rw [foldl_projectRoot_ne l ⟨"", "", ""⟩ hne]
    simp
  have her : ((l.foldl scanFolder ⟨"", "", ""⟩).engineRoot ≠ "") ↔
      ∃ f ∈ l, folderEngineHit f := by
    rw [foldl_engineRoot_ne l ⟨"", "", ""⟩ hne]
    simp
  have hpn : ((l.foldl scanFolder ⟨"", "", ""⟩).projectName ≠ "") ↔ ∃ f ∈ l, folderHit f := by
    rw [foldl_projectName_ne l ⟨"", "", ""⟩]
    simp
  show (if (l.foldl scanFolder ⟨"", "", ""⟩).projectRoot ≠ "" ∧
        (l.foldl scanFolder ⟨"", "", ""⟩).engineRoot ≠ "" ∧
        (l.foldl scanFolder ⟨"", "", ""⟩).projectName ≠ "" then
      some (⟨(l.foldl scanFolder ⟨"", "", ""⟩).projectRoot,
        (l.foldl scanFolder ⟨"", "", ""⟩).engineRoot,
        (l.foldl scanFolder ⟨"", "", ""⟩).projectName⟩ : WorkspacePaths)
    else none).isSome = true ↔ _
  by_cases hc : (l.foldl scanFolder ⟨"", "", ""⟩).projectRoot ≠ "" ∧
      (l.foldl scanFolder ⟨"", "", ""⟩).engineRoot ≠ "" ∧
      (l.foldl scanFolder ⟨"", "", ""⟩).projectName ≠ ""
  · rw [if_pos hc]
    constructor
    · intro _
      exact ⟨hpr.mp hc.1, her.mp hc.2.1⟩
    · intro _
      rfl
  · rw [if_neg hc]
    constructor
    · intro hfalse
      simp at hfalse
    · rintro ⟨hd, he⟩
      exact absurd ⟨hpr.mpr hd, her.mpr he, hpn.mpr hd⟩ hc

/-- A concrete workspace folder holding both the descriptor and the engine
marker. -/
def c4Folder : Folder := ⟨"/ws", true, true, true, ["Game.uproject"], true⟩

theorem getWorkspacePaths_isSome_iff_witness :
    (getWorkspacePaths (some [c4Folder])).isSome = true ↔
      ((∃ f ∈ [c4Folder], folderHit f) ∧ (∃ f ∈ [c4Folder], folderEngineHit f)) :=
  getWorkspacePaths_isSome_iff [c4Folder] (by decide)

/-- Folders without a descriptor hit leave the accumulated project name and
root untouched. -/
theorem foldl_no_hit_preserves (l : List Folder) :
    ∀ st : WorkspacePaths, (∀ g ∈ l, ¬ folderHit g) →
      ((l.foldl scanFolder st).projectName = st.projectName ∧
        (l.foldl scanFolder st).projectRoot = st.projectRoot) := by
  induction l with
  | nil => intro st _; exact ⟨rfl, rfl⟩
  | cons f l ih =>
    intro st hno
    rw [List.foldl_cons]
    have hnof : ¬ folderHit f := hno f (List.mem_cons_self f l)
    have hrest := ih (scanFolder st f) (fun g hg => hno g (List.mem_cons_of_mem f hg))
    have hchar := scanFolder_fields st f
    constructor
    · rw [hrest.1, hchar.2.2]
      by_cases hsc : scannable f = true
      · cases hfu : findUproject f with
        | some u => exact absurd ⟨hsc, by rw [hfu]; rfl⟩ hnof
        | none => simp [hsc, hfu]
      · simp [hsc]
    · rw [hrest.2, hchar.1]
      rw [if_neg (fun hb => hnof (by rw [Bool.and_eq_true] at hb; exact hb))]

/-- Claim C5 (amended): across folders it is the last scanned folder
containing a descriptor whose data wins, but within that folder the first
descriptor in directory-listing order is used: whenever the workspace folder
list splits as `l1 ++ f :: l2` with `f` scannable, `u` the first descriptor
listed in `f`, and no later folder hitting a descriptor, a successful
resolution reports project name `uprojectStem u` and project root
`f.fsPath`. -/
theorem getWorkspacePaths_lastFolder_firstFile (l1 l2 : List Folder) (f : Folder) (u : String)
    (hsc : scannable f = true) (hu : findUproject f = some u)
    (hno : ∀ g ∈ l2, ¬ folderHit g) :
    ∀ r, getWorkspacePaths (some (l1 ++ f :: l2)) = some r →
      r.projectName = uprojectStem u ∧ r.projectRoot = f.fsPath := by
  intro r hr
  have hfold : ((l1 ++ f :: l2).foldl scanFolder ⟨"", "", ""⟩).projectName = uprojectStem u ∧
      ((l1 ++ f :: l2).foldl scanFolder ⟨"", "", ""⟩).projectRoot = f.fsPath := by
    rw [List.foldl_append, List.foldl_cons]
    have hpres := foldl_no_hit_preserves l2 (scanFolder (l1.foldl scanFolder ⟨"", "", ""⟩) f) hno
    have hchar := scanFolder_fields (l1.foldl scanFolder ⟨"", "", ""⟩) f
    constructor
    · rw [hpres.1, hchar.2.2, if_pos hsc, hu]
    · rw [hpres.2, hchar.1,
        if_pos (by rw [Bool.and_eq_true]; exact ⟨hsc, by rw [hu]; rfl⟩)]
  replace hr : (if ((l1 ++ f :: l2).foldl scanFolder ⟨"", "", ""⟩).projectRoot ≠ "" ∧
        ((l1 ++ f :: l2).foldl scanFolder ⟨"", "", ""⟩).engineRoot ≠ "" ∧
        ((l1 ++ f :: l2).foldl scanFolder ⟨"", "", ""⟩).projectName ≠ "" then
      some (⟨((l1 ++ f :: l2).foldl scanFolder ⟨"", "", ""⟩).projectRoot,
        ((l1 ++ f :: l2).foldl scanFolder ⟨"", "", ""⟩).engineRoot,
        ((l1 ++ f :: l2).foldl scanFolder ⟨"", "", ""⟩).projectName⟩ : WorkspacePaths)
    else none) = some r := hr
  by_cases hc : ((l1 ++ f :: l2).foldl scanFolder ⟨"", "", ""⟩).projectRoot ≠ "" ∧
      ((l1 ++ f :: l2).foldl scanFolder ⟨"", "", ""⟩).engineRoot ≠ "" ∧
      ((l1 ++ f :: l2).foldl scanFolder ⟨"", "", ""⟩).projectName ≠ ""
  · rw [if_pos hc] at hr
    cases Option.some.inj hr
    exact ⟨hfold.1, hfold.2⟩
  · rw [if_neg hc] at hr
    cases hr

/-- A concrete folder listing two descriptor files. -/
def c5Folder : Folder := ⟨"/proj", true, true, true, ["A.uproject", "B.uproject"], true⟩

/-- Claim C5 counterexample: in a single folder listing the descriptors
`A.uproject` then `B.uproject`, the last descriptor scanned is
`B.uproject`, whose stem is `"B"` — but resolution reports `"A"`, the first
match in directory order, because `files.find` stops at the first hit.  The
last-one-wins rule therefore fails within a single folder. -/
theorem getWorkspacePaths_last_wins_counterexample :
    (getWorkspacePaths (some [c5Folder])).map (fun r => r.projectName) = some "A" ∧
    uprojectStem "B.uproject" = "B" ∧ ("A" : String) ≠ "B" :=
  ⟨rfl, rfl, by decide⟩

/-- A concrete descriptor-bearing folder without the engine marker. -/
def c5FolderA : Folder := ⟨"/proj", true, true, true, ["A.uproject", "B.uproject"], false⟩

/-- A concrete engine folder without descriptors. -/
def c5FolderEng : Folder := ⟨"/eng", true, true, true, [], true⟩

theorem getWorkspacePaths_lastFolder_firstFile_witness :
    ((getWorkspacePaths (some [c5FolderA, c5FolderEng])).getD ⟨"", "", ""⟩).projectName =
        uprojectStem "A.uproject" ∧
      ((getWorkspacePaths (some [c5FolderA, c5FolderEng])).getD ⟨"", "", ""⟩).projectRoot =
        "/proj" :=
  getWorkspacePaths_lastFolder_firstFile [] [c5FolderEng] c5FolderA "A.uproject" rfl rfl
    (by decide) ((getWorkspacePaths (some [c5FolderA, c5FolderEng])).getD ⟨"", "", ""⟩) rfl

/-! ### Claims about the phantom-error detector and the save watcher -/

/-- Claim C6: phantom-error detection is a pure predicate returning `true`
iff some diagnostic for the file has error severity and a normalized code
equal to `"ovl_deleted_init"` or `"missing_type_specifier"`; consequently it
returns `false` on an empty set, on only-warning sets, and on error
diagnostics with any other code.  The string form and the structured-object
form of a code normalize identically. -/
theorem hasPhantomErrors_iff_spec :
    ∀ ds : List Diagnostic,
      ((hasPhantomErrors ds = true ↔
        ∃ d ∈ ds, d.severity = DiagnosticSeverity.Error ∧
          (normalizeCode d.code = "ovl_deleted_init" ∨
            normalizeCode d.code = "missing_type_specifier")) ∧
      (∀ s : String, normalizeCode (.codeString s) = normalizeCode (.codeObjectString s))) := by
  intro ds
  constructor
  · simp [hasPhantomErrors]
  · intro s
    rfl

/-- Claim C7: with the auto-fix flag enabled, the save handler reaches the
compound-fix trigger iff path resolution succeeds, the saved file name ends
in `.h`, the file name contains the project's `Source` subtree path, and
phantom errors are currently reported for the file; in every other case
(including unresolved paths) it silently does nothing. -/
theorem onDidSaveTextDocument_iff (ws : Option (List Folder)) (fileName : String)
    (diagnostics : List Diagnostic) :
    onDidSaveTextDocument true ws fileName diagnostics = true ↔
      ∃ p, getWorkspacePaths ws = some p ∧
        strEndsWith fileName ".h" = true ∧
        strIncludes fileName (pathJoin p.projectRoot "Source") = true ∧
        hasPhantomErrors diagnostics = true := by
  unfold onDidSaveTextDocument
  cases hw : getWorkspacePaths ws with
  | none => simp
  | some p =>
    simp only [Bool.not_true, Bool.false_eq_true, if_false, Option.some.injEq]
    constructor
    · intro h
      by_cases hh : (strEndsWith fileName ".h" &&
          strIncludes fileName (pathJoin p.projectRoot "Source")) = true
      · rw [if_pos hh] at h
        rw [Bool.and_eq_true] at hh
        exact ⟨p, rfl, hh.1, hh.2, h⟩
      · rw [if_neg hh] at h
        cases h
    · rintro ⟨q, hq, h1, h2, h3⟩
      cases hq
      rw [if_pos (by rw [Bool.and_eq_true]; exact ⟨h1, h2⟩)]
      exact h3

/-! ### Lemmas about the filesystem model and paths -/

theorem setEntry_find_self (es : List (String × String)) (k v : String) :
    ((setEntry es k v).find? (fun kv => kv.1 == k)).map (fun kv => kv.2) = some v := by
  induction es with
  | nil => simp [setEntry]
  | cons kv es ih =>
    by_cases hk : (kv.1 == k) = true
    · simp [setEntry, hk]
    · have hk2 : (kv.1 == k) = false := by simpa using hk
      simpa [setEntry, hk2] using ih

theorem setEntry_find_ne (es : List (String × String)) (k q v : String) (h : q ≠ k) :
    ((setEntry es k v).find? (fun kv => kv.1 == q)).map (fun kv => kv.2) =
      (es.find? (fun kv => kv.1 == q)).map (fun kv => kv.2) := by
  induction es with
  | nil => simp [setEntry, beq_eq_false_iff_ne.mpr h.symm]
  | cons kv es ih =>
    by_cases hk : (kv.1 == k) = true
    · have hkv : kv.1 = k := by simpa using hk
      simp [setEntry, hk, hkv, beq_eq_false_iff_ne.mpr h.symm,
        beq_eq_false_iff_ne.mpr (hkv ▸ h.symm : kv.1 ≠ q).symm]
    · have hk2 : (kv.1 == k) = false := by simpa using hk
      by_cases hq : (kv.1 == q) = true
      · simp [setEntry, hk2, hq]
      · have hq2 : (kv.1 == q) = false := by simpa using hq
        simpa [setEntry, hk2, hq2] using ih

theorem FileSys.read_write_self (fs : FileSys) (p c : String) :
    (fs.write p c).read p = some c :=
  setEntry_find_self fs.entries p c

theorem FileSys.read_write_ne (fs : FileSys) (p q c : String) (h : q ≠ p) :
    (fs.write p c).read q = fs.read q :=
  setEntry_find_ne fs.entries p q c h

/-- A path ending in `/.clang-format` never equals a path ending in
`/.clangd`, whatever the two prefixes are. -/
theorem pathJoin_format_ne_clangd (a b : String) :
    pathJoin a ".clang-format" ≠ pathJoin b ".clangd" := by
  intro hc
  have hd : (a.data ++ "/".data) ++ ".clang-format".data =
      (b.data ++ "/".data) ++ ".clangd".data := congrArg String.data hc
  have hrev := congrArg List.reverse hd
  simp only [List.reverse_append] at hrev
  have htake := congrArg (List.take 7) hrev
  rw [List.take_append_of_le_length
      (by decide : 7 ≤ (".clang-format".data.reverse).length),
    List.take_append_of_le_length
      (by decide : 7 ≤ (".clangd".data.reverse).length)] at htake
  exact absurd htake (by decide)

/-- Joining the same file name onto two prefixes is injective in the
prefix. -/
theorem pathJoin_right_cancel (a b s : String) (h : pathJoin a s = pathJoin b s) : a = b := by
  have hd : (a.data ++ "/".data) ++ s.data = (b.data ++ "/".data) ++ s.data :=
    congrArg String.data h
  exact String.ext (List.append_cancel_right (List.append_cancel_right hd))

/-- Claim C8: with paths resolved, (i) a present source database that copies
successfully leaves the destination byte-equal to the source, requests the
clangd restart and shows no error; (ii) an absent source database leaves the
filesystem untouched and only warns, for any copy-failure behavior; (iii) a
present source whose copy throws reports an error, requests no restart and
leaves the filesystem untouched. -/
theorem syncCompileCommands_spec (ws : Option (List Folder)) (p : WorkspacePaths)
    (fs : FileSys) (c : String) (hp : getWorkspacePaths ws = some p) :
    ((fs.read (pathJoin p.engineRoot "compile_commands.json") = some c →
        (syncCompileCommands ws fs false).fs.read
          (pathJoin p.projectRoot "compile_commands.json") = some c ∧
        (syncCompileCommands ws fs false).restartRequested = true ∧
        (syncCompileCommands ws fs false).errorShown = false) ∧
      (fs.read (pathJoin p.engineRoot "compile_commands.json") = none →
        ∀ b, (syncCompileCommands ws fs b).fs = fs ∧
          (syncCompileCommands ws fs b).warnShown = true ∧
          (syncCompileCommands ws fs b).restartRequested = false) ∧
      (fs.read (pathJoin p.engineRoot "compile_commands.json") = some c →
        (syncCompileCommands ws fs true).errorShown = true ∧
        (syncCompileCommands ws fs true).restartRequested = false ∧
        (syncCompileCommands ws fs true).fs = fs)) := by
  refine ⟨?_, ?_, ?_⟩
  · intro hsrc
    simp only [syncCompileCommands, hp, hsrc]
    exact ⟨FileSys.read_write_self fs _ c, rfl, rfl⟩
  · intro hsrc b
    simp only [syncCompileCommands, hp, hsrc]
    simp
  · intro hsrc
    simp only [syncCompileCommands, hp, hsrc]
    simp

/-- A concrete filesystem holding the generated database under the engine
root `/ws`. -/
def c8FS : FileSys := ⟨[("/ws/compile_commands.json", "DB")]⟩

theorem syncCompileCommands_spec_witness :
    (syncCompileCommands (some [c4Folder]) c8FS false).fs.read
        (pathJoin "/ws" "compile_commands.json") = some "DB" ∧
      (syncCompileCommands (some [c4Folder]) c8FS false).restartRequested = true :=
  have h := syncCompileCommands_spec (some [c4Folder]) ⟨"/ws", "/ws", "Game"⟩ c8FS "DB" rfl
  ⟨(h.1 rfl).1, (h.1 rfl).2.1⟩

/-- Claim C9 counterexample: with both templates read successfully and no
write failure at all, the engine root receives only `.clangd`: after the run
the engine-root `.clang-format` file does not exist, although the run
completed normally (the project-root `.clang-format` was written).  This
refutes "attempts the same write of each into the engine root". -/
theorem runSetup_engine_format_counterexample :
    (runSetupConfigInstall samplePaths (some "CLANGD") (some "FORMAT") false ⟨[]⟩).fs.read
        (pathJoin "/eng" ".clang-format") = none ∧
      (runSetupConfigInstall samplePaths (some "CLANGD") (some "FORMAT") false ⟨[]⟩).fs.read
        (pathJoin "/proj" ".clang-format") = some "FORMAT" ∧
      (runSetupConfigInstall samplePaths (some "CLANGD") (some "FORMAT") false ⟨[]⟩).errorShown
        = false :=
  ⟨rfl, rfl, rfl⟩

/-- Claim C9 (amended): after both templates are read successfully, the
config-install step writes both templates verbatim into the project root
(overwriting unconditionally), attempts the write of only the `.clangd`
template into the engine root, and an engine-root write failure produces
only a non-fatal warning (never an error) with the project-root writes
intact; the engine-root `.clang-format` file is never touched.  The
hypothesis separates the two roots, as they are in any real workspace. -/
theorem runSetupConfigInstall_spec (p : WorkspacePaths) (cc fc : String) (ew : Bool)
    (fs : FileSys) (hne : p.engineRoot ≠ p.projectRoot) :
    ((runSetupConfigInstall p (some cc) (some fc) ew fs).fs.read
        (pathJoin p.projectRoot ".clangd") = some cc) ∧
    ((runSetupConfigInstall p (some cc) (some fc) ew fs).fs.read
        (pathJoin p.projectRoot ".clang-format") = some fc) ∧
    (ew = false → (runSetupConfigInstall p (some cc) (some fc) ew fs).fs.read
        (pathJoin p.engineRoot ".clangd") = some cc) ∧
    (ew = true → (runSetupConfigInstall p (some cc) (some fc) ew fs).fs.read
        (pathJoin p.engineRoot ".clangd") = fs.read (pathJoin p.engineRoot ".clangd")) ∧
    ((runSetupConfigInstall p (some cc) (some fc) ew fs).warnShown = ew) ∧
    ((runSetupConfigInstall p (some cc) (some fc) ew fs).errorShown = false) ∧
    ((runSetupConfigInstall p (some cc) (some fc) ew fs).fs.read
        (pathJoin p.engineRoot ".clang-format") = fs.read (pathJoin p.engineRoot ".clang-format")) := by
  have hpcpf : pathJoin p.projectRoot ".clangd" ≠ pathJoin p.projectRoot ".clang-format" :=
    fun hc => pathJoin_format_ne_clangd p.projectRoot p.projectRoot hc.symm
  have hecpc : pathJoin p.engineRoot ".clangd" ≠ pathJoin p.projectRoot ".clangd" :=
    fun hc => hne (pathJoin_right_cancel p.engineRoot p.projectRoot ".clangd" hc)
  have hecpf : pathJoin p.engineRoot ".clangd" ≠ pathJoin p.projectRoot ".clang-format" :=
    fun hc => pathJoin_format_ne_clangd p.projectRoot p.engineRoot hc.symm
  have hefpc : pathJoin p.engineRoot ".clang-format" ≠ pathJoin p.projectRoot ".clangd" :=
    pathJoin_format_ne_clangd p.engineRoot p.projectRoot
  have hefpf : pathJoin p.engineRoot ".clang-format" ≠ pathJoin p.projectRoot ".clang-format" :=
    fun hc => hne (pathJoin_right_cancel p.engineRoot p.projectRoot ".clang-format" hc)
  have hefec : pathJoin p.engineRoot ".clang-format" ≠ pathJoin p.engineRoot ".clangd" :=
    pathJoin_format_ne_clangd p.engineRoot p.engineRoot
  cases ew with
  | true =>
    have e1 : runSetupConfigInstall p (some cc) (some fc) true fs =
        ⟨(fs.write (pathJoin p.projectRoot ".clangd") cc).write
          (pathJoin p.projectRoot ".clang-format") fc, true, false⟩ := rfl
    rw [e1]
    dsimp only
    refine ⟨?_, ?_, ?_, ?_, rfl, rfl, ?_⟩
    · rw [FileSys.read_write_ne _ _ _ fc hpcpf, FileSys.read_write_self]
    · rw [FileSys.read_write_self]
    · intro hc
      exact absurd hc (by decide)
    · intro _
      rw [FileSys.read_write_ne _ _ _ fc hecpf, FileSys.read_write_ne _ _ _ cc hecpc]
    · rw [FileSys.read_write_ne _ _ _ fc hefpf, FileSys.read_write_ne _ _ _ cc hefpc]
  | false =>
    have e1 : runSetupConfigInstall p (some cc) (some fc) false fs =
        ⟨((fs.write (pathJoin p.projectRoot ".clangd") cc).write
            (pathJoin p.projectRoot ".clang-format") fc).write
          (pathJoin p.engineRoot ".clangd") cc, false, false⟩ := rfl
    rw [e1]
    dsimp only
    refine ⟨?_, ?_, ?_, ?_, rfl, rfl, ?_⟩
    · rw [FileSys.read_write_ne _ _ _ cc hecpc.symm, FileSys.read_write_ne _ _ _ fc hpcpf,
        FileSys.read_write_self]
    · rw [FileSys.read_write_ne _ _ _ cc hecpf.symm, FileSys.read_write_self]
    · intro _
      rw [FileSys.read_write_self]
    · intro hc
      exact absurd hc (by decide)
    · rw [FileSys.read_write_ne _ _ _ cc hefec, FileSys.read_write_ne _ _ _ fc hefpf,
        FileSys.read_write_ne _ _ _ cc hefpc]

theorem runSetupConfigInstall_spec_witness :
    ((runSetupConfigInstall samplePaths (some "CLANGD") (some "FORMAT") true ⟨[]⟩).fs.read
        (pathJoin "/proj" ".clangd") = some "CLANGD") ∧
      ((runSetupConfigInstall samplePaths (some "CLANGD") (some "FORMAT") true ⟨[]⟩).warnShown
        = true) ∧
      ((runSetupConfigInstall samplePaths (some "CLANGD") (some "FORMAT") true ⟨[]⟩).errorShown
        = false) :=
  have h := runSetupConfigInstall_spec samplePaths "CLANGD" "FORMAT" true ⟨[]⟩ (by decide)
  ⟨h.1, h.2.2.2.2.1, h.2.2.2.2.2.1⟩
